import Mathlib

/-!
Shallow embedding of `src/online-and-offline-indicator/src/index.ts`:
the presence registry (`userSocket`), the connection handler, the close and
pong handlers, the heartbeat sweep (30s `setInterval`), the staleness sweep
(60s `setInterval`), the directory reconciler (`deleteInactiveUsers`) and the
broadcaster (`broadcastUserStatus`).

Modelling conventions:
* `Conn` is the state of one `ExtWebSocket` object: its `userId` and `isAlive`
  fields, whether `readyState === WebSocket.OPEN`, whether a `send` on it
  throws (for modelling broadcast send errors), and `sockId`, a tag standing
  for JavaScript object identity (each accepted socket is a distinct object).
* The registry `userSocket` is a `List (Option Conn)`; `none` stands for an
  `undefined` slot, which the heartbeat (`!ws`) and the staleness sweep
  defensively check for.
* Side effects of a handler (calls to `terminate()`, `ping()`,
  `updateUserLastLogin` and `broadcastUserStatus`) are collected in `Effects`.
* The event loop is serialized, so each handler is a pure function from the
  registry to a registry plus effects, and an execution is a fold over events.
-/

set_option linter.unusedVariables false

namespace Presence

/-- State of one `ExtWebSocket` object (src/index.ts lines 57-60). -/
structure Conn where
  userId : String
  isAlive : Bool
  readyStateOpen : Bool
  sendFails : Bool
  sockId : Nat
deriving DecidableEq

/-- The `userSocket` array (line 63); `none` models an `undefined` slot. -/
abbrev Registry := List (Option Conn)

/-- Side effects a handler performs: sockets terminated, sockets pinged,
`updateUserLastLogin` calls, registry entries spliced out by the heartbeat
(`evictions`, recorded by `sockId`), and `broadcastUserStatus` calls. -/
structure Effects where
  terms : List Nat
  pings : List Nat
  touches : List String
  evictions : List Nat
  broadcasts : Nat
deriving DecidableEq

def noEffects : Effects := ⟨[], [], [], [], 0⟩

/-- Projection of the registry through a field of its defined entries. -/
def projList (f : Conn → α) (reg : Registry) : List α :=
  reg.filterMap (fun o => o.map f)

def userIds (reg : Registry) : List String := projList Conn.userId reg

/-- The invariant claimed for the registry: no two entries share a `userId`. -/
def uniq (reg : Registry) : Prop := (userIds reg).Nodup

def sockIds (reg : Registry) : List Nat := projList Conn.sockId reg

/-- Socket identities of the entries whose transport is currently open. -/
def openSocks (reg : Registry) : List Nat :=
  reg.filterMap (fun o => o.bind (fun c =>
    if c.readyStateOpen then some c.sockId else none))

/-- Fuel-driven model of JavaScript `String.prototype.split` on a fixed
non-empty separator, over character lists.  The fuel is the length of the
input, which suffices because every step consumes at least one character. -/
def splitOnAuxL (sep : List Char) : Nat → List Char → List Char → List (List Char)
  | 0, s, acc => [acc.reverse ++ s]
  | fuel + 1, s, acc =>
    match s with
    | [] => [acc.reverse]
    | c :: rest =>
      if sep.isPrefixOf (c :: rest) then
        acc.reverse :: splitOnAuxL sep fuel (List.drop sep.length (c :: rest)) []
      else
        splitOnAuxL sep fuel rest (c :: acc)

def splitOnL (sep s : List Char) : List (List Char) := splitOnAuxL sep s.length s []

/-- `req.url?.split("?userId=")[1]` (line 67): `none` models JavaScript
`undefined` (no separator in the url, hence no element at index 1). -/
def parseUserId (url : String) : Option String :=
  ((splitOnL "?userId=".toList url.toList).map (fun l => String.mk l))[1]?

/-- The socket state right after `ws.userId = userId; ws.isAlive = true`
(lines 70-71): freshly accepted sockets are open. -/
def newConn (uid : String) (sockId : Nat) : Conn :=
  { userId := uid, isAlive := true, readyStateOpen := true,
    sendFails := false, sockId := sockId }

/-- `findIndex((u) => u.userId === userId)` followed by `splice(index, 1)`:
returns the first entry whose `userId` matches (if any) together with the
array with that one element spliced out.  An `undefined` slot would make the
JavaScript predicate throw; the code never stores `undefined`, and the model
skips such slots. -/
def removeFirstById (uid : String) : Registry → Option Conn × Registry
  | [] => (none, [])
  | some c :: rest =>
    if c.userId = uid then (some c, rest)
    else
      let p := removeFirstById uid rest
      (p.1, some c :: p.2)
  | none :: rest =>
    let p := removeFirstById uid rest
    (p.1, none :: p.2)

/-- Body of the connection handler after the `userId` guard (lines 70-90):
terminate and splice any existing entry with the same `userId`, push the new
socket, touch the directory record, broadcast. -/
def acceptConn (uid : String) (sockId : Nat) (reg : Registry) : Registry × Effects :=
  let p := removeFirstById uid reg
  (p.2 ++ [some (newConn uid sockId)],
   { noEffects with
     terms := match p.1 with | some old => [old.sockId] | none => []
     touches := [uid], broadcasts := 1 })

/-- The `wss.on("connection")` handler (lines 66-90): a missing or empty
`userId` makes the handler `return` with no side effects at all. -/
def onConnection (url : String) (sockId : Nat) (reg : Registry) : Registry × Effects :=
  match parseUserId url with
  | none => (reg, noEffects)
  | some uid => if uid = "" then (reg, noEffects) else acceptConn uid sockId reg

/-- The `ws.on("close")` handler (lines 92-99) for a socket that captured
`userId = uid` at admission: look up by `userId`, splice, broadcast. -/
def onClose (uid : String) (reg : Registry) : Registry × Effects :=
  let p := removeFirstById uid reg
  if p.1.isSome then (p.2, { noEffects with broadcasts := 1 }) else (reg, noEffects)

/-- The `ws.on("pong")` handler (lines 101-103): sets `isAlive = true` on the
socket object identified by `sockId` (a no-op on the registry if that object
is no longer registered). -/
def onPong (sockId : Nat) (reg : Registry) : Registry :=
  reg.map (fun o => match o with
    | some c => if c.sockId = sockId then some { c with isAlive := true } else some c
    | none => none)

/-- One callback invocation of the heartbeat `forEach` (lines 169-184) at
index `k` of the current array: skip absent indices (`forEach` does not visit
deleted elements), `undefined` slots and non-open sockets; terminate and
splice (with an immediate broadcast) a socket whose `isAlive` is false;
otherwise clear `isAlive` and ping. -/
def hbVisit (reg : Registry) (k : Nat) (eff : Effects) : Registry × Effects :=
  match reg[k]? with
  | none => (reg, eff)
  | some none => (reg, eff)
  | some (some c) =>
    if !c.readyStateOpen then (reg, eff)
    else if !c.isAlive then
      let eff2 := { eff with terms := eff.terms ++ [c.sockId] }
      match removeFirstById c.userId reg with
      | (some old, reg2) =>
        (reg2, { eff2 with
                 evictions := eff2.evictions ++ [old.sockId]
                 broadcasts := eff2.broadcasts + 1 })
      | (none, _) => (reg, eff2)
    else
      (reg.set k (some { c with isAlive := false }),
       { eff with pings := eff.pings ++ [c.sockId] })

/-- `Array.prototype.forEach`: the iteration bound is the length captured
before the loop, while each callback reads the current (possibly spliced)
array; `n` counts the remaining iterations. -/
def hbAux : Nat → Nat → Registry → Effects → Registry × Effects
  | 0, _, reg, eff => (reg, eff)
  | n + 1, k, reg, eff =>
    let p := hbVisit reg k eff
    hbAux n (k + 1) p.1 p.2

/-- One tick of the 30s heartbeat `setInterval` (lines 168-185). -/
def hbTick (reg : Registry) : Registry × Effects := hbAux reg.length 0 reg noEffects

/-- The staleness sweep keeps exactly the defined entries whose transport is
open (lines 200-208). -/
def staleKeep : Option Conn → Bool
  | none => false
  | some c => c.readyStateOpen

/-- The backward `for` loop of the staleness sweep (lines 198-209): visits
indices `n-1, …, 0`, splicing out `undefined` slots and non-open sockets;
splicing at `i` leaves the not-yet-visited indices `< i` unchanged. -/
def staleAux : Nat → Registry → Registry
  | 0, reg => reg
  | n + 1, reg =>
    staleAux n (match reg[n]? with
      | none => reg
      | some o => if staleKeep o then reg else reg.eraseIdx n)

/-- One tick of the 60s staleness `setInterval` (lines 194-216): broadcast
iff the sweep removed something. -/
def staleTick (reg : Registry) : Registry × Effects :=
  let reg2 := staleAux reg.length reg
  (reg2, if reg2.length < reg.length then { noEffects with broadcasts := 1 } else noEffects)

/-- Events delivered into the serialized event loop. -/
inductive Event where
  | connect (url : String) (sockId : Nat)
  | closeEvt (uid : String)
  | pong (sockId : Nat)
  | heartbeat
  | stale
deriving DecidableEq

def step (reg : Registry) : Event → Registry × Effects
  | Event.connect url s => onConnection url s reg
  | Event.closeEvt uid => onClose uid reg
  | Event.pong s => (onPong s reg, noEffects)
  | Event.heartbeat => hbTick reg
  | Event.stale => staleTick reg

def run (reg : Registry) (evs : List Event) : Registry :=
  evs.foldl (fun r e => (step r e).1) reg

/-- A mongoose `User` document (lines 25-30), with `lastLogin` in epoch ms. -/
structure UserRecord where
  _id : String
  username : String
  email : String
  lastLogin : Int
deriving DecidableEq

/-- `lastLogin: { $lt: Date.now() - 2 * 60 * 1000 }` (lines 148-151). -/
def isInactive (now : Int) (u : UserRecord) : Bool :=
  u.lastLogin < now - 2 * 60 * 1000

/-- `deleteInactiveUsers` (lines 146-166): find records below the 2-minute
threshold; if any exist, `deleteMany` with the same filter and broadcast. -/
def deleteInactiveUsers (now : Int) (dir : List UserRecord) : List UserRecord × Effects :=
  let inactiveUsers := dir.filter (fun u => isInactive now u)
  if inactiveUsers.length > 0 then
    (dir.filter (fun u => !isInactive now u), { noEffects with broadcasts := 1 })
  else (dir, noEffects)

/-- One element of the broadcast `users` array (lines 125-130). -/
structure StatusEntry where
  _id : String
  username : String
  email : String
  online : Bool
deriving DecidableEq

inductive JVal where
  | str (s : String)
  | bool (b : Bool)
deriving DecidableEq

/-- The serialized keys and values of one `users` element, in the order of
the object literal at lines 125-130: note the key is `_id`, taken verbatim
from the mongoose document. -/
def serializeStatusEntry (e : StatusEntry) : List (String × JVal) :=
  [("_id", JVal.str e._id), ("username", JVal.str e.username),
   ("email", JVal.str e.email), ("online", JVal.bool e.online)]

/-- `userSocket.map((ws) => ws.userId).filter(Boolean)` (line 119). -/
def onlineUserIds (reg : Registry) : List String :=
  (reg.filterMap (fun o => o.map Conn.userId)).filter (fun s => s != "")

/-- `usersWithStatus` (lines 125-130): every directory record, with `online`
computed as membership of its `_id` in the snapshot taken at line 119. -/
def usersWithStatus (reg : Registry) (dir : List UserRecord) : List StatusEntry :=
  dir.map (fun u =>
    { _id := u._id, username := u.username, email := u.email,
      online := (onlineUserIds reg).contains u._id })

/-- The send loop (lines 133-140).  The `try` wraps the whole function body,
so a throwing `send` aborts the remaining iterations; the result lists the
`sockId`s whose `send` completed.  An `undefined` slot would throw as well. -/
def deliverLoop : Registry → List Nat
  | [] => []
  | none :: _ => []
  | some c :: rest => if c.sendFails then [] else c.sockId :: deliverLoop rest

/-- `broadcastUserStatus` (lines 116-144): each delivered message is the pair
of the string `"user-status"` (the `type` field) and the `users` array, sent
to the listed `sockId`.  An `undefined` slot makes line 119 throw before
anything is sent; the surrounding `catch` only logs. -/
def broadcastUserStatus (reg : Registry) (dir : List UserRecord) :
    List (Nat × String × List StatusEntry) :=
  if reg.any (fun o => o.isNone) then []
  else (deliverLoop reg).map (fun sid => (sid, ("user-status", usersWithStatus reg dir)))

/-- The sublist of registry slots the staleness sweep would remove:
`undefined` slots and entries whose transport is not open. -/
def nonOpenPart (reg : Registry) : Registry := reg.filter (fun o => !staleKeep o)

/-! ### Basic lemmas about the registry projections -/

theorem mem_projList {f : Conn → α} {reg : Registry} {c : Conn} (h : some c ∈ reg) :
    f c ∈ projList f reg :=
  List.mem_filterMap.mpr ⟨some c, h, rfl⟩

theorem proj_unique (f : Conn → α) :
    ∀ {reg : Registry}, (projList f reg).Nodup →
      ∀ {c c' : Conn}, some c ∈ reg → some c' ∈ reg → f c = f c' → c = c' := by
  intro reg
  induction reg with
  | nil => intro _ c c' hc; simp at hc
  | cons o rest ih =>
    intro hnd c c' hc hc' hf
    cases o with
    | none =>
      simp only [List.mem_cons, reduceCtorEq, false_or] at hc hc'
      exact ih (by simpa [projList] using hnd) hc hc' hf
    | some c0 =>
      have hnd' : (f c0 ∉ projList f rest) ∧ (projList f rest).Nodup := by
        simpa [projList, List.filterMap_cons] using hnd
      rcases List.mem_cons.mp hc with hc1 | hc1
      · rcases List.mem_cons.mp hc' with hc2 | hc2
        · rw [Option.some.injEq] at hc1 hc2; rw [hc1, hc2]
        · rw [Option.some.injEq] at hc1; subst hc1
          exact absurd (by rw [hf]; exact mem_projList hc2 : f c ∈ projList f rest) hnd'.1
      · rcases List.mem_cons.mp hc' with hc2 | hc2
        · rw [Option.some.injEq] at hc2; subst hc2
          exact absurd (by rw [← hf]; exact mem_projList hc1 : f c' ∈ projList f rest) hnd'.1
        · exact ih hnd'.2 hc1 hc2 hf

theorem userIds_append (l1 l2 : Registry) :
    userIds (l1 ++ l2) = userIds l1 ++ userIds l2 :=
  List.filterMap_append l1 l2 _

/-! ### Lemmas about `removeFirstById` -/

theorem removeFirst_none_iff {uid : String} :
    ∀ {reg : Registry}, (removeFirstById uid reg).1 = none ↔ uid ∉ userIds reg := by
  intro reg
  induction reg with
  | nil => simp [removeFirstById, userIds, projList]
  | cons o rest ih =>
    cases o with
    | none => simpa [removeFirstById, userIds, projList] using ih
    | some c =>
      by_cases h : c.userId = uid
      · simp [removeFirstById, h, userIds, projList]
      · simpa [removeFirstById, h, userIds, projList, Ne.symm h] using ih

theorem removeFirst_eq_of_none {uid : String} :
    ∀ {reg : Registry}, (removeFirstById uid reg).1 = none →
      (removeFirstById uid reg).2 = reg := by
  intro reg
  induction reg with
  | nil => intro; rfl
  | cons o rest ih =>
    cases o with
    | none => intro h; simpa [removeFirstById] using ih (by simpa [removeFirstById] using h)
    | some c =>
      by_cases h : c.userId = uid
      · simp [removeFirstById, h]
      · intro h2
        simpa [removeFirstById, h] using ih (by simpa [removeFirstById, h] using h2)

theorem userIds_removeFirst (uid : String) :
    ∀ reg : Registry, userIds (removeFirstById uid reg).2 = (userIds reg).erase uid := by
  intro reg
  induction reg with
  | nil => rfl
  | cons o rest ih =>
    cases o with
    | none => simpa [removeFirstById, userIds, projList] using ih
    | some c =>
      by_cases h : c.userId = uid
      · simp [removeFirstById, h, userIds, projList, List.erase_cons]
      · simpa [removeFirstById, h, userIds, projList, List.erase_cons, h] using ih

theorem removeFirst_some {uid : String} :
    ∀ {reg : Registry} {c : Conn}, (removeFirstById uid reg).1 = some c →
      c.userId = uid ∧
        ∃ l1 l2, reg = l1 ++ some c :: l2 ∧ (removeFirstById uid reg).2 = l1 ++ l2 := by
  intro reg
  induction reg with
  | nil => intro c h; simp [removeFirstById] at h
  | cons o rest ih =>
    intro c h
    cases o with
    | none =>
      have h' : (removeFirstById uid rest).1 = some c := by
        simpa [removeFirstById] using h
      obtain ⟨h1, l1, l2, hdec, hrem⟩ := ih h'
      exact ⟨h1, none :: l1, l2, by rw [hdec]; rfl, by simp [removeFirstById, hrem]⟩
    | some c0 =>
      by_cases hc0 : c0.userId = uid
      · have hce : c = c0 := by
          have : (some c0, rest) = ((removeFirstById uid (some c0 :: rest)).1,
              (removeFirstById uid (some c0 :: rest)).2) := by simp [removeFirstById, hc0]
          rw [h] at this
          exact (Option.some.injEq _ _ ▸ congrArg Prod.fst this.symm :)
        subst hce
        exact ⟨hc0, [], rest, rfl, by simp [removeFirstById, hc0]⟩
      · have h' : (removeFirstById uid rest).1 = some c := by
          simpa [removeFirstById, hc0] using h
        obtain ⟨h1, l1, l2, hdec, hrem⟩ := ih h'
        exact ⟨h1, some c0 :: l1, l2, by rw [hdec]; rfl,
          by simp [removeFirstById, hc0, hrem]⟩

theorem removeFirst_mem {uid : String} {reg : Registry} {c : Conn}
    (h : (removeFirstById uid reg).1 = some c) : some c ∈ reg := by
  obtain ⟨-, l1, l2, hdec, -⟩ := removeFirst_some h
  rw [hdec]
  exact List.mem_append.mpr (Or.inr (List.mem_cons_self _ _))

/-! ### Lemmas about `onPong`, `List.set`, and the staleness sweep -/

theorem userIds_onPong (s : Nat) (reg : Registry) : userIds (onPong s reg) = userIds reg := by
  unfold userIds projList onPong
  rw [List.filterMap_map]
  congr 1
  funext o
  cases o with
  | none => rfl
  | some c => by_cases h : c.sockId = s <;> simp [h]

theorem filterMap_set {β : Type} (g : Option Conn → Option β) :
    ∀ (reg : Registry) (k : Nat) (o o' : Option Conn), reg[k]? = some o → g o' = g o →
      (reg.set k o').filterMap g = reg.filterMap g := by
  intro reg
  induction reg with
  | nil => intro k o o' h; simp at h
  | cons x rest ih =>
    intro k o o' h hg
    cases k with
    | zero =>
      simp only [List.getElem?_cons_zero, Option.some.injEq] at h
      subst h
      simp only [List.set_cons_zero, List.filterMap_cons, hg]
    | succ k =>
      simp only [List.getElem?_cons_succ] at h
      simp only [List.set_cons_succ, List.filterMap_cons, ih k o o' h hg]

theorem filter_set (q : Option Conn → Bool) :
    ∀ (reg : Registry) (k : Nat) (o o' : Option Conn), reg[k]? = some o →
      q o = false → q o' = false → (reg.set k o').filter q = reg.filter q := by
  intro reg
  induction reg with
  | nil => intro k o o' h; simp at h
  | cons x rest ih =>
    intro k o o' h ho ho'
    cases k with
    | zero =>
      simp only [List.getElem?_cons_zero, Option.some.injEq] at h
      subst h
      simp only [List.set_cons_zero, List.filter_cons, ho, ho', Bool.false_eq_true, if_false]
    | succ k =>
      simp only [List.getElem?_cons_succ] at h
      simp only [List.set_cons_succ, List.filter_cons, ih k o o' h ho ho']

theorem staleAux_append :
    ∀ (n : Nat) (l1 l2 : Registry), n ≤ l1.length →
      staleAux n (l1 ++ l2) = staleAux n l1 ++ l2 := by
  intro n
  induction n with
  | zero => intro l1 l2 h; rfl
  | succ n ih =>
    intro l1 l2 h
    have hn : n < l1.length := h
    have hget : (l1 ++ l2)[n]? = l1[n]? := by
      rw [List.getElem?_append]
      exact if_pos hn
    cases hx : l1[n]? with
    | none =>
      exact absurd (List.getElem?_eq_none_iff.mp hx) (Nat.not_le_of_lt hn)
    | some o =>
      by_cases hq : staleKeep o
      · simp only [staleAux, hget, hx, hq, if_true]
        exact ih l1 l2 (Nat.le_of_lt hn)
      · simp only [staleAux, hget, hx, hq, if_false, Bool.false_eq_true,
          List.eraseIdx_append_of_lt_length hn]
        refine ih (l1.eraseIdx n) l2 ?_
        rw [List.length_eraseIdx_of_lt hn]
        omega

theorem staleAux_eq_filter : ∀ reg : Registry, staleAux reg.length reg = reg.filter staleKeep := by
  intro reg
  induction reg using List.reverseRecOn with
  | nil => rfl
  | append_singleton xs x ih =>
    have hlen : (xs ++ [x]).length = xs.length + 1 := by simp
    have hget : (xs ++ [x])[xs.length]? = some x := by
      rw [List.getElem?_append_right (Nat.le_refl _)]
      simp
    rw [hlen]
    by_cases hq : staleKeep x
    · simp only [staleAux, hget, hq, if_true]
      rw [staleAux_append xs.length xs [x] (Nat.le_refl _), ih, List.filter_append]
      simp [hq]
    · have he : (xs ++ [x]).eraseIdx xs.length = xs := by
        rw [List.eraseIdx_append_of_length_le (Nat.le_refl _)]
        simp
      simp only [staleAux, hget, hq, if_false, Bool.false_eq_true, he]
      rw [List.filter_append, show ([x].filter staleKeep) = [] by simp [hq], List.append_nil]
      exact ih

theorem mem_of_getElem? {reg : Registry} {k : Nat} {o : Option Conn}
    (h : reg[k]? = some o) : o ∈ reg := by
  obtain ⟨hk, rfl⟩ := List.getElem?_eq_some.mp h
  exact List.getElem_mem hk

theorem openSocks_append (l1 l2 : Registry) :
    openSocks (l1 ++ l2) = openSocks l1 ++ openSocks l2 :=
  List.filterMap_append l1 l2 _

theorem mem_openSocks {reg : Registry} {c : Conn} (hmem : some c ∈ reg)
    (hopen : c.readyStateOpen = true) : c.sockId ∈ openSocks reg :=
  List.mem_filterMap.mpr ⟨some c, hmem, by simp [hopen]⟩

theorem mem_openSocks_elim {reg : Registry} {s : Nat} (h : s ∈ openSocks reg) :
    ∃ c : Conn, some c ∈ reg ∧ c.readyStateOpen = true ∧ c.sockId = s := by
  obtain ⟨o, ho, heq⟩ := List.mem_filterMap.mp h
  cases o with
  | none => simp at heq
  | some c =>
    by_cases hop : c.readyStateOpen
    · exact ⟨c, ho, hop, by simpa [hop] using heq⟩
    · simp [hop] at heq

theorem userIds_set {reg : Registry} {k : Nat} {c : Conn} (c' : Conn)
    (hk : reg[k]? = some (some c)) (hid : c'.userId = c.userId) :
    userIds (reg.set k (some c')) = userIds reg :=
  filterMap_set _ reg k (some c) (some c') hk (by simp [hid])

theorem openSocks_set {reg : Registry} {k : Nat} {c : Conn} (c' : Conn)
    (hk : reg[k]? = some (some c)) (hop : c'.readyStateOpen = c.readyStateOpen)
    (hs : c'.sockId = c.sockId) :
    openSocks (reg.set k (some c')) = openSocks reg :=
  filterMap_set _ reg k (some c) (some c') hk (by simp [hop, hs])

theorem nonOpenPart_set {reg : Registry} {k : Nat} {c : Conn} (c' : Conn)
    (hk : reg[k]? = some (some c)) (h1 : staleKeep (some c) = true)
    (h2 : staleKeep (some c') = true) :
    nonOpenPart (reg.set k (some c')) = nonOpenPart reg :=
  filter_set _ reg k (some c) (some c') hk (by simp [h1]) (by simp [h2])

/-! ### The heartbeat sweep: invariants of one callback and of the whole sweep -/

theorem hbVisit_spec (reg : Registry) (k : Nat) (eff : Effects) (h : uniq reg) :
    uniq (hbVisit reg k eff).1 ∧
    nonOpenPart (hbVisit reg k eff).1 = nonOpenPart reg ∧
    (∀ s, s ∈ openSocks (hbVisit reg k eff).1 → s ∈ openSocks reg) ∧
    (∀ s, s ∈ (hbVisit reg k eff).2.pings → s ∈ eff.pings ∨ s ∈ openSocks reg) ∧
    (∀ s, s ∈ (hbVisit reg k eff).2.terms → s ∈ eff.terms ∨ s ∈ openSocks reg) ∧
    (∀ s, s ∈ (hbVisit reg k eff).2.evictions → s ∈ eff.evictions ∨ s ∈ openSocks reg) := by
  unfold hbVisit
  cases hk : reg[k]? with
  | none =>
    exact ⟨h, rfl, fun s hs => hs, fun s hs => Or.inl hs, fun s hs => Or.inl hs,
      fun s hs => Or.inl hs⟩
  | some o =>
    cases o with
    | none =>
      exact ⟨h, rfl, fun s hs => hs, fun s hs => Or.inl hs, fun s hs => Or.inl hs,
        fun s hs => Or.inl hs⟩
    | some c =>
      dsimp only
      have hmemc : some c ∈ reg := mem_of_getElem? hk
      by_cases hopen : c.readyStateOpen = true
      · by_cases halive : c.isAlive = true
        · -- ping branch
          rw [if_neg (by simp [hopen]), if_neg (by simp [halive])]
          have hu : userIds (reg.set k (some { c with isAlive := false })) = userIds reg :=
            userIds_set { c with isAlive := false } hk rfl
          have ho : openSocks (reg.set k (some { c with isAlive := false })) = openSocks reg :=
            openSocks_set { c with isAlive := false } hk rfl rfl
          have hn : nonOpenPart (reg.set k (some { c with isAlive := false })) = nonOpenPart reg :=
            nonOpenPart_set { c with isAlive := false } hk (by simp [staleKeep, hopen])
              (by simp [staleKeep, hopen])
          refine ⟨?_, hn, ?_, ?_, ?_, ?_⟩
          · show uniq (reg.set k (some { c with isAlive := false }))
            unfold uniq
            rw [hu]
            exact h
          · intro s hs
            have hs2 : s ∈ openSocks (reg.set k (some { c with isAlive := false })) := hs
            rwa [ho] at hs2
          · intro s hs
            have hs2 : s ∈ eff.pings ++ [c.sockId] := hs
            rcases List.mem_append.mp hs2 with hs3 | hs3
            · exact Or.inl hs3
            · rw [List.mem_singleton.mp hs3]
              exact Or.inr (mem_openSocks hmemc hopen)
          · intro s hs; exact Or.inl hs
          · intro s hs; exact Or.inl hs
        · -- eviction branch
          rw [if_neg (by simp [hopen]), if_pos (by simp [halive])]
          rcases hrf : removeFirstById c.userId reg with ⟨fst, snd⟩
          cases fst with
          | none =>
            refine ⟨h, rfl, fun s hs => hs, fun s hs => Or.inl hs, ?_, fun s hs => Or.inl hs⟩
            intro s hs
            have hs2 : s ∈ eff.terms ++ [c.sockId] := hs
            rcases List.mem_append.mp hs2 with hs3 | hs3
            · exact Or.inl hs3
            · rw [List.mem_singleton.mp hs3]
              exact Or.inr (mem_openSocks hmemc hopen)
          | some old =>
            have hfst : (removeFirstById c.userId reg).1 = some old := by rw [hrf]
            have hsnd : (removeFirstById c.userId reg).2 = snd := by rw [hrf]
            obtain ⟨hoid, l1, l2, hreg, hrem⟩ := removeFirst_some hfst
            rw [hsnd] at hrem
            have holdc : old = c :=
              proj_unique Conn.userId h (removeFirst_mem hfst) hmemc hoid
            have holdopen : staleKeep (some old) = true := by
              simp [staleKeep, holdc, hopen]
            refine ⟨?_, ?_, ?_, ?_, ?_, ?_⟩
            · show uniq snd
              unfold uniq
              rw [← hsnd, userIds_removeFirst]
              exact List.Nodup.erase _ h
            · show nonOpenPart snd = nonOpenPart reg
              rw [hrem, hreg]
              unfold nonOpenPart
              rw [List.filter_append, List.filter_append, List.filter_cons]
              simp [holdopen]
            · intro s hs
              have hs2 : s ∈ openSocks snd := hs
              rw [hrem, openSocks_append] at hs2
              rw [hreg, openSocks_append]
              rcases List.mem_append.mp hs2 with hs3 | hs3
              · exact List.mem_append.mpr (Or.inl hs3)
              · refine List.mem_append.mpr (Or.inr ?_)
                show s ∈ openSocks (some old :: l2)
                have hcons : openSocks (some old :: l2) = old.sockId :: openSocks l2 := by
                  simp [openSocks, List.filterMap_cons, holdc, hopen]
                rw [hcons]
                exact List.mem_cons_of_mem _ hs3
            · intro s hs; exact Or.inl hs
            · intro s hs
              have hs2 : s ∈ eff.terms ++ [c.sockId] := hs
              rcases List.mem_append.mp hs2 with hs3 | hs3
              · exact Or.inl hs3
              · rw [List.mem_singleton.mp hs3]
                exact Or.inr (mem_openSocks hmemc hopen)
            · intro s hs
              have hs2 : s ∈ eff.evictions ++ [old.sockId] := hs
              rcases List.mem_append.mp hs2 with hs3 | hs3
              · exact Or.inl hs3
              · rw [List.mem_singleton.mp hs3, holdc]
                exact Or.inr (mem_openSocks hmemc hopen)
      · -- not open: skipped
        have hopen' : c.readyStateOpen = false := by
          revert hopen; cases c.readyStateOpen <;> simp
        rw [if_pos (by simp [hopen'])]
        exact ⟨h, rfl, fun s hs => hs, fun s hs => Or.inl hs, fun s hs => Or.inl hs,
          fun s hs => Or.inl hs⟩


theorem hbAux_spec :
    ∀ (n k : Nat) (reg : Registry) (eff : Effects), uniq reg →
      uniq (hbAux n k reg eff).1 ∧
      nonOpenPart (hbAux n k reg eff).1 = nonOpenPart reg ∧
      (∀ s, s ∈ openSocks (hbAux n k reg eff).1 → s ∈ openSocks reg) ∧
      (∀ s, s ∈ (hbAux n k reg eff).2.pings → s ∈ eff.pings ∨ s ∈ openSocks reg) ∧
      (∀ s, s ∈ (hbAux n k reg eff).2.terms → s ∈ eff.terms ∨ s ∈ openSocks reg) ∧
      (∀ s, s ∈ (hbAux n k reg eff).2.evictions → s ∈ eff.evictions ∨ s ∈ openSocks reg) := by
  intro n
  induction n with
  | zero =>
    intro k reg eff h
    exact ⟨h, rfl, fun s hs => hs, fun s hs => Or.inl hs, fun s hs => Or.inl hs,
      fun s hs => Or.inl hs⟩
  | succ n ih =>
    intro k reg eff h
    obtain ⟨hv1, hv2, hv3, hv4, hv5, hv6⟩ := hbVisit_spec reg k eff h
    obtain ⟨h1, h2, h3, h4, h5, h6⟩ := ih (k + 1) (hbVisit reg k eff).1 (hbVisit reg k eff).2 hv1
    have heq : hbAux (n + 1) k reg eff = hbAux n (k + 1) (hbVisit reg k eff).1 (hbVisit reg k eff).2 := rfl
    rw [heq]
    refine ⟨h1, h2.trans hv2, fun s hs => hv3 s (h3 s hs), ?_, ?_, ?_⟩
    · intro s hs
      rcases h4 s hs with hs' | hs'
      · rcases hv4 s hs' with hs'' | hs''
        · exact Or.inl hs''
        · exact Or.inr hs''
      · exact Or.inr (hv3 s hs')
    · intro s hs
      rcases h5 s hs with hs' | hs'
      · rcases hv5 s hs' with hs'' | hs''
        · exact Or.inl hs''
        · exact Or.inr hs''
      · exact Or.inr (hv3 s hs')
    · intro s hs
      rcases h6 s hs with hs' | hs'
      · rcases hv6 s hs' with hs'' | hs''
        · exact Or.inl hs''
        · exact Or.inr hs''
      · exact Or.inr (hv3 s hs')

/-! ### Uniqueness is preserved by every event -/

theorem uniq_nil : uniq [] := by simp [uniq, userIds, projList]

theorem uniq_acceptConn {reg : Registry} {uid : String} {s : Nat} (h : uniq reg) :
    uniq (acceptConn uid s reg).1 := by
  unfold acceptConn uniq
  rw [userIds_append, userIds_removeFirst]
  rw [show userIds [some (newConn uid s)] = [uid] from rfl]
  rw [List.nodup_append]
  refine ⟨List.Nodup.erase _ h, List.nodup_singleton _, ?_⟩
  intro a ha hb
  rw [List.mem_singleton.mp hb] at ha
  exact List.Nodup.not_mem_erase h ha

theorem uniq_onConnection {reg : Registry} {url : String} {s : Nat} (h : uniq reg) :
    uniq (onConnection url s reg).1 := by
  unfold onConnection
  cases parseUserId url with
  | none => exact h
  | some uid =>
    by_cases he : uid = ""
    · simp only [he, if_pos rfl]
      exact h
    · simp only [if_neg he]
      exact uniq_acceptConn h

theorem uniq_onClose {reg : Registry} {uid : String} (h : uniq reg) :
    uniq (onClose uid reg).1 := by
  unfold onClose
  by_cases hs : (removeFirstById uid reg).1.isSome
  · simp only [hs, if_true]
    unfold uniq
    rw [userIds_removeFirst]
    exact List.Nodup.erase _ h
  · simp only [hs, Bool.false_eq_true, if_false]
    exact h

theorem uniq_onPong {reg : Registry} {s : Nat} (h : uniq reg) : uniq (onPong s reg) := by
  unfold uniq
  rw [userIds_onPong]
  exact h

theorem uniq_hbTick {reg : Registry} (h : uniq reg) : uniq (hbTick reg).1 :=
  (hbAux_spec reg.length 0 reg noEffects h).1

theorem uniq_staleTick {reg : Registry} (h : uniq reg) : uniq (staleTick reg).1 := by
  unfold staleTick
  simp only
  rw [staleAux_eq_filter]
  exact List.Nodup.sublist (List.Sublist.filterMap _ (List.filter_sublist reg)) h

theorem uniq_step {reg : Registry} (e : Event) (h : uniq reg) : uniq (step reg e).1 := by
  cases e with
  | connect url s => exact uniq_onConnection h
  | closeEvt uid => exact uniq_onClose h
  | pong s => exact uniq_onPong h
  | heartbeat => exact uniq_hbTick h
  | stale => exact uniq_staleTick h

theorem uniq_run : ∀ (evs : List Event) (reg : Registry), uniq reg → uniq (run reg evs) := by
  intro evs
  induction evs with
  | nil => intro reg h; exact h
  | cons e es ih => intro reg h; exact ih _ (uniq_step e h)

/-! ### Broadcast-per-eviction accounting for the heartbeat sweep -/

theorem hbVisit_broadcast_delta (reg : Registry) (k : Nat) (eff : Effects) :
    (hbVisit reg k eff).2.broadcasts + eff.evictions.length =
      (hbVisit reg k eff).2.evictions.length + eff.broadcasts := by
  unfold hbVisit
  cases hk : reg[k]? with
  | none =>
    show eff.broadcasts + eff.evictions.length = eff.evictions.length + eff.broadcasts
    omega
  | some o =>
    cases o with
    | none =>
      show eff.broadcasts + eff.evictions.length = eff.evictions.length + eff.broadcasts
      omega
    | some c =>
      dsimp only
      by_cases hopen : c.readyStateOpen = true
      · by_cases halive : c.isAlive = true
        · rw [if_neg (by simp [hopen]), if_neg (by simp [halive])]
          show eff.broadcasts + eff.evictions.length = eff.evictions.length + eff.broadcasts
          omega
        · rw [if_neg (by simp [hopen]), if_pos (by simp [halive])]
          rcases hrf : removeFirstById c.userId reg with ⟨fst, snd⟩
          cases fst with
          | none =>
            show eff.broadcasts + eff.evictions.length = eff.evictions.length + eff.broadcasts
            omega
          | some old =>
            show eff.broadcasts + 1 + eff.evictions.length =
              (eff.evictions ++ [old.sockId]).length + eff.broadcasts
            rw [List.length_append]
            simp only [List.length_singleton]
            omega
      · have hopen' : c.readyStateOpen = false := by
          revert hopen; cases c.readyStateOpen <;> simp
        rw [if_pos (by simp [hopen'])]
        show eff.broadcasts + eff.evictions.length = eff.evictions.length + eff.broadcasts
        omega

theorem hbAux_broadcast_eq :
    ∀ (n k : Nat) (reg : Registry) (eff : Effects),
      (hbAux n k reg eff).2.broadcasts + eff.evictions.length =
        (hbAux n k reg eff).2.evictions.length + eff.broadcasts := by
  intro n
  induction n with
  | zero =>
    intro k reg eff
    show eff.broadcasts + eff.evictions.length = eff.evictions.length + eff.broadcasts
    omega
  | succ n ih =>
    intro k reg eff
    have h1 := hbVisit_broadcast_delta reg k eff
    have h2 := ih (k + 1) (hbVisit reg k eff).1 (hbVisit reg k eff).2
    have heq : hbAux (n + 1) k reg eff
        = hbAux n (k + 1) (hbVisit reg k eff).1 (hbVisit reg k eff).2 := rfl
    rw [heq]
    omega

/-- When every slot is a defined socket whose `send` succeeds, the send loop
reaches every registered transport, in registry order. -/
theorem deliverLoop_all :
    ∀ reg : Registry, (∀ o ∈ reg, ∃ c : Conn, o = some c ∧ c.sendFails = false) →
      deliverLoop reg = sockIds reg := by
  intro reg
  induction reg with
  | nil => intro; rfl
  | cons o rest ih =>
    intro h
    obtain ⟨c, rfl, hc⟩ := h o (List.mem_cons_self _ _)
    show (if c.sendFails = true then [] else c.sockId :: deliverLoop rest) = _
    rw [if_neg (by simp [hc])]
    rw [ih (fun o ho => h o (List.mem_cons_of_mem _ ho))]
    rfl

/-! ### Claims -/

/-- C1: for every sequence of admissions and removals (indeed of all events)
processed in the serialized context, the registry never holds two entries
with the same `userId`; and admitting a connection whose `userId` already has
an entry terminates exactly the prior entry's transport and leaves exactly
one entry for that `userId` (the old entry having been spliced out before the
new one is pushed). -/
theorem registry_unique_identity :
    (∀ evs : List Event, uniq (run [] evs)) ∧
    (∀ (reg : Registry) (uid : String) (s : Nat) (old : Conn),
      uniq reg → some old ∈ reg → old.userId = uid →
      (acceptConn uid s reg).2.terms = [old.sockId] ∧
      List.count uid (userIds (acceptConn uid s reg).1) = 1) := by
  constructor
  · intro evs
    exact uniq_run evs [] uniq_nil
  · intro reg uid s old h hmem huid
    have hne : (removeFirstById uid reg).1 ≠ none := by
      rw [Ne, removeFirst_none_iff]
      intro hnot
      exact hnot (huid ▸ mem_projList hmem)
    constructor
    · cases hrf : (removeFirstById uid reg).1 with
      | none => exact absurd hrf hne
      | some c2 =>
        have hc2 : c2 = old := by
          refine proj_unique Conn.userId h (removeFirst_mem hrf) hmem ?_
          rw [(removeFirst_some hrf).1, huid]
        show (match (removeFirstById uid reg).1 with
          | some o => [o.sockId] | none => ([] : List Nat)) = [old.sockId]
        rw [hrf, hc2]
    · show List.count uid (userIds ((removeFirstById uid reg).2 ++ [some (newConn uid s)])) = 1
      rw [userIds_append, userIds_removeFirst,
        show userIds [some (newConn uid s)] = [uid] from rfl, List.count_append]
      have h0 : List.count uid ((userIds reg).erase uid) = 0 :=
        List.count_eq_zero.mpr (List.Nodup.not_mem_erase h)
      rw [h0]
      simp

/-- C1 witness: a concrete duplicate admission. -/
theorem registry_unique_identity_w :
    uniq [some (Conn.mk "u1" true true false 7)] ∧
    ((acceptConn "u1" 2 [some (Conn.mk "u1" true true false 7)]).2.terms = [7] ∧
      List.count "u1" (userIds (acceptConn "u1" 2 [some (Conn.mk "u1" true true false 7)]).1) = 1) :=
  ⟨by unfold uniq; decide,
    registry_unique_identity.2 [some (Conn.mk "u1" true true false 7)] "u1" 2
      (Conn.mk "u1" true true false 7) (by unfold uniq; decide) (by decide) (by decide)⟩

/-- C2: the spec scenario fails on the code.  After `u1` reconnects (socket 2
replacing socket 1, which is terminated), delivery of socket 1's `close`
event removes socket 2's fresh entry — the close handler looks entries up by
`userId`, not by socket identity — leaving the registry empty and
broadcasting `u1` as offline, where the claim requires the registry to keep
exactly the new entry. -/
theorem duplicate_close_removes_new_entry :
    (onConnection "/?userId=u1" 2 (onConnection "/?userId=u1" 1 []).1).2.terms = [1] ∧
    userIds (onConnection "/?userId=u1" 2 (onConnection "/?userId=u1" 1 []).1).1 = ["u1"] ∧
    onClose "u1" (onConnection "/?userId=u1" 2 (onConnection "/?userId=u1" 1 []).1).1
      = ([], { noEffects with broadcasts := 1 }) := by
  decide

/-- C7: removal by identity is idempotent under the uniqueness invariant:
one `close` handler run removes the entry exactly once (the identity's entry
is erased from the id list), a second run finds nothing, changes nothing and
emits no broadcast, and each run broadcasts at most once. -/
theorem remove_idempotent (uid : String) (reg : Registry) (h : uniq reg) :
    userIds (onClose uid reg).1 = (userIds reg).erase uid ∧
    onClose uid (onClose uid reg).1 = ((onClose uid reg).1, noEffects) ∧
    (onClose uid reg).2.broadcasts ≤ 1 := by
  have h2 : userIds (onClose uid reg).1 = (userIds reg).erase uid := by
    unfold onClose
    by_cases hs : (removeFirstById uid reg).1.isSome
    · rw [if_pos hs]
      exact userIds_removeFirst uid reg
    · rw [if_neg hs]
      have hn : (removeFirstById uid reg).1 = none := Option.not_isSome_iff_eq_none.mp hs
      rw [List.erase_of_not_mem (removeFirst_none_iff.mp hn)]
  refine ⟨h2, ?_, ?_⟩
  · have hnot : uid ∉ userIds (onClose uid reg).1 := by
      rw [h2]
      exact List.Nodup.not_mem_erase h
    have hn2 : (removeFirstById uid (onClose uid reg).1).1 = none :=
      removeFirst_none_iff.mpr hnot
    show (if (removeFirstById uid (onClose uid reg).1).1.isSome
        then ((removeFirstById uid (onClose uid reg).1).2, { noEffects with broadcasts := 1 })
        else ((onClose uid reg).1, noEffects)) = ((onClose uid reg).1, noEffects)
    rw [if_neg (by simp [hn2])]
  · unfold onClose
    by_cases hs : (removeFirstById uid reg).1.isSome
    · rw [if_pos hs]
    · rw [if_neg hs]
      exact Nat.zero_le 1

/-- C7 witness: removing `"u1"` twice from a concrete one-entry registry. -/
theorem remove_idempotent_w :
    userIds (onClose "u1" [some (Conn.mk "u1" true true false 3)]).1
        = (userIds [some (Conn.mk "u1" true true false 3)]).erase "u1" ∧
    onClose "u1" (onClose "u1" [some (Conn.mk "u1" true true false 3)]).1
        = ((onClose "u1" [some (Conn.mk "u1" true true false 3)]).1, noEffects) ∧
    (onClose "u1" [some (Conn.mk "u1" true true false 3)]).2.broadcasts ≤ 1 :=
  remove_idempotent "u1" [some (Conn.mk "u1" true true false 3)] (by unfold uniq; decide)

/-- C3 counterexample: an open entry (`"b"`, socket 2) that never delivers a
pong is NOT evicted on the second heartbeat tick after its admission.  In the
sweep right after its admission, the eviction of the earlier dead entry `"a"`
splices the array during `forEach`, so the sweep skips `"b"` entirely (no
ping is sent to socket 2); `"b"` is still registered after two ticks and is
evicted only on the third. -/
theorem hb_second_tick_cex :
    (step (run [] [Event.connect "/?userId=a" 1, Event.heartbeat,
        Event.connect "/?userId=b" 2]) Event.heartbeat).2.pings = [] ∧
    userIds (run [] [Event.connect "/?userId=a" 1, Event.heartbeat,
        Event.connect "/?userId=b" 2, Event.heartbeat, Event.heartbeat]) = ["b"] ∧
    userIds (run [] [Event.connect "/?userId=a" 1, Event.heartbeat,
        Event.connect "/?userId=b" 2, Event.heartbeat, Event.heartbeat,
        Event.heartbeat]) = [] := by
  decide

/-- C3 amended: the two-tick design holds for an entry the sweep actually
visits on both ticks — in particular for a sole registry entry with an open
transport: the first tick only clears its alive flag and pings it (no
eviction, no broadcast), and the second tick terminates it, splices it out
and broadcasts.  In general an eviction of an earlier entry in the same sweep
makes `forEach` skip the next entry, delaying its probe and eviction by one
full period. -/
theorem hb_second_tick_sole (c : Conn) (hOpen : c.readyStateOpen = true)
    (hAlive : c.isAlive = true) :
    hbTick [some c]
        = ([some { c with isAlive := false }], { noEffects with pings := [c.sockId] }) ∧
    hbTick [some { c with isAlive := false }]
        = ([], { noEffects with terms := [c.sockId], evictions := [c.sockId], broadcasts := 1 }) := by
  have h1 : hbVisit [some c] 0 noEffects
      = ([some { c with isAlive := false }], { noEffects with pings := [c.sockId] }) := by
    show (if (!c.readyStateOpen) = true then ([some c], noEffects)
      else if (!c.isAlive) = true then _ else
        (([some c] : Registry).set 0 (some { c with isAlive := false }),
         { noEffects with pings := noEffects.pings ++ [c.sockId] })) = _
    rw [if_neg (by simp [hOpen]), if_neg (by simp [hAlive])]
    rfl
  have h2 : hbVisit [some { c with isAlive := false }] 0 noEffects
      = ([], { noEffects with terms := [c.sockId], evictions := [c.sockId], broadcasts := 1 }) := by
    have hrf : removeFirstById ({ c with isAlive := false } : Conn).userId
        [some { c with isAlive := false }] = (some { c with isAlive := false }, []) := by
      simp [removeFirstById]
    show (if (!({ c with isAlive := false } : Conn).readyStateOpen) = true
        then ([some { c with isAlive := false }], noEffects)
      else if (!({ c with isAlive := false } : Conn).isAlive) = true then
        (match removeFirstById ({ c with isAlive := false } : Conn).userId
            [some { c with isAlive := false }] with
          | (some old, reg2) =>
            (reg2, { terms := noEffects.terms ++ [({ c with isAlive := false } : Conn).sockId],
                     pings := noEffects.pings, touches := noEffects.touches,
                     evictions := noEffects.evictions ++ [old.sockId],
                     broadcasts := noEffects.broadcasts + 1 })
          | (none, _) =>
            ([some { c with isAlive := false }],
             { noEffects with
               terms := noEffects.terms ++ [({ c with isAlive := false } : Conn).sockId] }))
      else _) = _
    rw [if_neg (by simp [hOpen]), if_pos (by simp), hrf]
    rfl
  constructor
  · show hbAux 0 1 (hbVisit [some c] 0 noEffects).1 (hbVisit [some c] 0 noEffects).2 = _
    rw [show hbAux 0 1 (hbVisit [some c] 0 noEffects).1 (hbVisit [some c] 0 noEffects).2
        = ((hbVisit [some c] 0 noEffects).1, (hbVisit [some c] 0 noEffects).2) from rfl, h1]
  · show hbAux 0 1 (hbVisit [some { c with isAlive := false }] 0 noEffects).1
        (hbVisit [some { c with isAlive := false }] 0 noEffects).2 = _
    rw [show hbAux 0 1 (hbVisit [some { c with isAlive := false }] 0 noEffects).1
          (hbVisit [some { c with isAlive := false }] 0 noEffects).2
        = ((hbVisit [some { c with isAlive := false }] 0 noEffects).1,
           (hbVisit [some { c with isAlive := false }] 0 noEffects).2) from rfl, h2]

/-- C3 witness: the sole-entry two-tick behavior at a concrete connection. -/
theorem hb_second_tick_sole_w :
    hbTick [some (Conn.mk "u1" true true false 4)]
        = ([some { Conn.mk "u1" true true false 4 with isAlive := false }],
           { noEffects with pings := [4] }) ∧
    hbTick [some { Conn.mk "u1" true true false 4 with isAlive := false }]
        = ([], { noEffects with terms := [4], evictions := [4], broadcasts := 1 }) := by
  simpa using hb_second_tick_sole (Conn.mk "u1" true true false 4) (by decide) (by decide)

/-- C4 counterexample: a single heartbeat sweep that evicts two dead entries
(`"a"` and `"y"`; `"x"` answered its probe) triggers two broadcasts — one per
eviction, inside the loop — not one batched broadcast at the end of the
sweep. -/
theorem hb_batched_broadcast_cex :
    (step (run [] [Event.connect "/?userId=a" 1, Event.connect "/?userId=x" 2,
        Event.connect "/?userId=y" 3, Event.heartbeat, Event.pong 2])
      Event.heartbeat).2.broadcasts = 2 ∧
    (step (run [] [Event.connect "/?userId=a" 1, Event.connect "/?userId=x" 2,
        Event.connect "/?userId=y" 3, Event.heartbeat, Event.pong 2])
      Event.heartbeat).2.evictions.length = 2 := by
  decide

/-- C4 amended: a heartbeat sweep triggers exactly one broadcast per evicted
entry, emitted immediately at each eviction inside the loop; in particular a
sweep that evicts nothing broadcasts nothing, and a sweep that evicts `n`
entries broadcasts `n` times. -/
theorem hb_broadcast_per_eviction (reg : Registry) :
    (hbTick reg).2.broadcasts = (hbTick reg).2.evictions.length := by
  have h := hbAux_broadcast_eq reg.length 0 reg noEffects
  have h0 : noEffects.evictions.length = 0 := rfl
  have h1 : noEffects.broadcasts = 0 := rfl
  show (hbAux reg.length 0 reg noEffects).2.broadcasts
      = (hbAux reg.length 0 reg noEffects).2.evictions.length
  omega

/-- C5 counterexample: recipient A (socket 1) has a throwing `send`;
recipient B (socket 2) follows it in the registry.  The function-level
`catch` aborts the whole send loop, so the broadcast delivers nothing at all
— B does not receive its message, contradicting the claimed isolation. -/
theorem send_failure_isolation_cex :
    broadcastUserStatus
        [some (Conn.mk "a" true true true 1), some (Conn.mk "b" true true false 2)]
        [UserRecord.mk "a" "alice" "a@x" 0] = [] := by
  decide

/-- C5 amended: a send error during the broadcast loop is caught by the
function-level handler and aborts the remainder of the loop: every recipient
after the failing one receives nothing for that broadcast, while recipients
before the failing one have already received theirs. -/
theorem send_failure_aborts_loop (a b : Conn) (dir : List UserRecord)
    (ha : a.sendFails = true) (hb : b.sendFails = false) :
    broadcastUserStatus [some a, some b] dir = [] ∧
    (broadcastUserStatus [some b, some a] dir).map Prod.fst = [b.sockId] := by
  constructor
  · unfold broadcastUserStatus
    rw [if_neg (by simp)]
    rw [show deliverLoop [some a, some b] = [] from by
      show (if a.sendFails = true then [] else _) = []
      rw [if_pos ha]]
    rfl
  · unfold broadcastUserStatus
    rw [if_neg (by simp)]
    rw [show deliverLoop [some b, some a] = [b.sockId] from by
      show (if b.sendFails = true then []
        else b.sockId :: (if a.sendFails = true then [] else _)) = [b.sockId]
      rw [if_neg (by simp [hb]), if_pos ha]]
    rfl

/-- C5 witness: concrete failing first recipient and succeeding second. -/
theorem send_failure_aborts_loop_w :
    broadcastUserStatus
        [some (Conn.mk "a" true true true 1), some (Conn.mk "b" true true false 2)]
        [UserRecord.mk "a" "alice" "a@x" 0] = [] ∧
    (broadcastUserStatus
        [some (Conn.mk "b" true true false 2), some (Conn.mk "a" true true true 1)]
        [UserRecord.mk "a" "alice" "a@x" 0]).map Prod.fst = [2] :=
  send_failure_aborts_loop (Conn.mk "a" true true true 1) (Conn.mk "b" true true false 2)
    [UserRecord.mk "a" "alice" "a@x" 0] (by decide) (by decide)

/-- C6 counterexample: an admission with a missing (or empty) `userId` leaves
the registry untouched and produces NO effects at all — in particular no
transport is terminated or closed (`terms = []`): the handler just returns,
so the claim's "the connection is dropped (its transport closed)" is false;
the unregistered connection simply stays open. -/
theorem refuse_no_close_cex :
    onConnection "/ws" 5 [] = ([], noEffects) ∧
    onConnection "/ws?userId=" 5 [] = ([], noEffects) ∧
    (onConnection "/ws" 5 []).2.terms = [] ∧
    noEffects.terms = [] := by
  decide

/-- C6 amended: a connection whose request carries a missing or empty
`userId` is silently refused with no side effects: the registry is not
mutated, no broadcast is issued, no directory touch is performed, and no
transport is closed or terminated — the connection is left unregistered but
its transport is not closed by the server. -/
theorem refuse_silent_no_side_effects (url : String) (s : Nat) (reg : Registry)
    (h : parseUserId url = none ∨ parseUserId url = some "") :
    onConnection url s reg = (reg, noEffects) := by
  unfold onConnection
  rcases h with h | h
  · rw [h]
  · rw [h]
    rfl

/-- C6 witness: a concrete url without a `userId` on a nonempty registry. -/
theorem refuse_silent_no_side_effects_w :
    (parseUserId "/ws" = none ∨ parseUserId "/ws" = some "") ∧
    onConnection "/ws" 5 [some (Conn.mk "u1" true true false 1)]
      = ([some (Conn.mk "u1" true true false 1)], noEffects) :=
  ⟨Or.inl (by decide),
    refuse_silent_no_side_effects "/ws" 5 [some (Conn.mk "u1" true true false 1)]
      (Or.inl (by decide))⟩

/-- C8: the reconciler deletes every record whose `lastLogin` is older than
the 2-minute threshold — its filter consults only the timestamp, never the
registry — broadcasts exactly when at least one record matched, and a
broadcast over the reconciled directory contains no element carrying a
deleted user's id (assuming directory ids are unique, as for a keyed store). -/
theorem reconciler_deletes_stale (now : Int) (dir : List UserRecord) (reg : Registry)
    (hids : (dir.map (fun u => u._id)).Nodup) :
    (∀ u ∈ dir, u.lastLogin < now - 2 * 60 * 1000 → u ∉ (deleteInactiveUsers now dir).1) ∧
    ((deleteInactiveUsers now dir).2.broadcasts = 1 ↔
      ∃ u ∈ dir, u.lastLogin < now - 2 * 60 * 1000) ∧
    (∀ u ∈ dir, u.lastLogin < now - 2 * 60 * 1000 →
      ∀ m ∈ broadcastUserStatus reg (deleteInactiveUsers now dir).1,
        ∀ e ∈ m.2.2, e._id ≠ u._id) := by
  have hbool : ∀ u : UserRecord,
      isInactive now u = true ↔ u.lastLogin < now - 2 * 60 * 1000 := by
    intro u
    simp [isInactive]
  have hres : ∀ u ∈ dir, u.lastLogin < now - 2 * 60 * 1000 →
      (deleteInactiveUsers now dir).1 = dir.filter (fun u => !isInactive now u) ∧
      (deleteInactiveUsers now dir).2.broadcasts = 1 := by
    intro u hu hst
    have hlen : (dir.filter (fun u => isInactive now u)).length > 0 :=
      List.length_pos_of_mem (List.mem_filter.mpr ⟨hu, (hbool u).mpr hst⟩)
    unfold deleteInactiveUsers
    rw [if_pos hlen]
    exact ⟨rfl, rfl⟩
  refine ⟨?_, ?_, ?_⟩
  · intro u hu hst hmem
    rw [(hres u hu hst).1] at hmem
    have hnot := (List.mem_filter.mp hmem).2
    have hya := (hbool u).mpr hst
    rw [hya] at hnot
    simp at hnot
  · constructor
    · intro hb
      by_cases hlen : (dir.filter (fun u => isInactive now u)).length > 0
      · obtain ⟨u, hu⟩ := List.exists_mem_of_length_pos hlen
        obtain ⟨h1, h2⟩ := List.mem_filter.mp hu
        exact ⟨u, h1, (hbool u).mp h2⟩
      · exfalso
        unfold deleteInactiveUsers at hb
        rw [if_neg hlen] at hb
        exact absurd hb (by simp [noEffects])
    · rintro ⟨u, hu, hst⟩
      exact (hres u hu hst).2
  · intro u hu hst m hm e he
    unfold broadcastUserStatus at hm
    by_cases hany : reg.any (fun o => o.isNone) = true
    · rw [if_pos hany] at hm
      simp at hm
    · rw [if_neg hany] at hm
      obtain ⟨sid, hsid, hmeq⟩ := List.mem_map.mp hm
      rw [← hmeq] at he
      have he2 : e ∈ usersWithStatus reg (deleteInactiveUsers now dir).1 := he
      obtain ⟨u2, hu2, heq⟩ := List.mem_map.mp he2
      rw [(hres u hu hst).1] at hu2
      obtain ⟨hu2dir, hu2b⟩ := List.mem_filter.mp hu2
      intro hid
      have heid : e._id = u2._id := by rw [← heq]
      have hsame : u2._id = u._id := by rw [← heid, hid]
      have hu2u : u2 = u := List.inj_on_of_nodup_map hids hu2dir hu hsame
      rw [hu2u, (hbool u).mpr hst] at hu2b
      simp at hu2b

/-- C8 witness: `u3` is 5 minutes stale at `now = 300000` ms, `u4` is fresh. -/
theorem reconciler_deletes_stale_w :
    (∀ u ∈ [UserRecord.mk "u3" "bob" "b@x" 0, UserRecord.mk "u4" "carol" "c@x" 300000],
      u.lastLogin < 300000 - 2 * 60 * 1000 →
        u ∉ (deleteInactiveUsers 300000
          [UserRecord.mk "u3" "bob" "b@x" 0, UserRecord.mk "u4" "carol" "c@x" 300000]).1) ∧
    ((deleteInactiveUsers 300000
        [UserRecord.mk "u3" "bob" "b@x" 0, UserRecord.mk "u4" "carol" "c@x" 300000]).2.broadcasts = 1 ↔
      ∃ u ∈ [UserRecord.mk "u3" "bob" "b@x" 0, UserRecord.mk "u4" "carol" "c@x" 300000],
        u.lastLogin < 300000 - 2 * 60 * 1000) ∧
    (∀ u ∈ [UserRecord.mk "u3" "bob" "b@x" 0, UserRecord.mk "u4" "carol" "c@x" 300000],
      u.lastLogin < 300000 - 2 * 60 * 1000 →
      ∀ m ∈ broadcastUserStatus [some (Conn.mk "u3" true true false 1)]
        (deleteInactiveUsers 300000
          [UserRecord.mk "u3" "bob" "b@x" 0, UserRecord.mk "u4" "carol" "c@x" 300000]).1,
        ∀ e ∈ m.2.2, e._id ≠ u._id) :=
  reconciler_deletes_stale 300000
    [UserRecord.mk "u3" "bob" "b@x" 0, UserRecord.mk "u4" "carol" "c@x" 300000]
    [some (Conn.mk "u3" true true false 1)] (by decide)

/-- C9 counterexample: the broadcast payload element for a user carries the
key `_id`, not `id`: the serialized keys are exactly
`["_id", "username", "email", "online"]` and `"id"` is not among them.
Moreover, with a failing first recipient, the second registered transport
receives zero messages rather than exactly one. -/
theorem broadcast_payload_field_cex :
    usersWithStatus [some (Conn.mk "u1" true true false 1)]
        [UserRecord.mk "u1" "alice" "a@x" 0]
      = [StatusEntry.mk "u1" "alice" "a@x" true] ∧
    (serializeStatusEntry (StatusEntry.mk "u1" "alice" "a@x" true)).map Prod.fst
      = ["_id", "username", "email", "online"] ∧
    "id" ∉ (serializeStatusEntry (StatusEntry.mk "u1" "alice" "a@x" true)).map Prod.fst ∧
    broadcastUserStatus
        [some (Conn.mk "u1" true true true 1), some (Conn.mk "u2" true true false 2)]
        [UserRecord.mk "u1" "alice" "a@x" 0] = [] := by
  decide

/-- C9 amended: when every registered slot is a defined socket whose `send`
succeeds, a broadcast sends exactly one message to each registered transport
(in registry order); every message is the pair of the type tag
`"user-status"` and the `users` array; and every `users` element comes from a
directory record, serializes with exactly the keys `_id`, `username`,
`email`, `online` (the identity key is `_id`, not `id`), and has `online`
computed as membership of the record's id in the registry snapshot. -/
theorem broadcast_payload_shape (reg : Registry) (dir : List UserRecord)
    (h : ∀ o ∈ reg, ∃ c : Conn, o = some c ∧ c.sendFails = false) :
    (broadcastUserStatus reg dir).map Prod.fst = sockIds reg ∧
    (∀ m ∈ broadcastUserStatus reg dir,
      m.2.1 = "user-status" ∧ m.2.2 = usersWithStatus reg dir) ∧
    (∀ e ∈ usersWithStatus reg dir,
      (serializeStatusEntry e).map Prod.fst = ["_id", "username", "email", "online"] ∧
      ∃ u ∈ dir, e._id = u._id ∧ e.online = (onlineUserIds reg).contains u._id) := by
  have hany : reg.any (fun o => o.isNone) = false := by
    rw [List.any_eq_false]
    intro o ho
    obtain ⟨c, rfl, -⟩ := h o ho
    simp
  have hb : broadcastUserStatus reg dir
      = (deliverLoop reg).map (fun sid => (sid, ("user-status", usersWithStatus reg dir))) := by
    unfold broadcastUserStatus
    rw [if_neg (by simp [hany])]
  refine ⟨?_, ?_, ?_⟩
  · rw [hb, List.map_map, deliverLoop_all reg h]
    have hid : (Prod.fst ∘ fun sid : Nat =>
        (sid, ("user-status", usersWithStatus reg dir))) = id := rfl
    rw [hid, List.map_id]
  · intro m hm
    rw [hb] at hm
    obtain ⟨sid, hsid, hmeq⟩ := List.mem_map.mp hm
    rw [← hmeq]
    exact ⟨rfl, rfl⟩
  · intro e he
    obtain ⟨u, hu, heq⟩ := List.mem_map.mp he
    refine ⟨rfl, u, hu, ?_, ?_⟩
    · rw [← heq]
    · rw [← heq]

/-- C9 witness: one registered healthy socket, one directory record. -/
theorem broadcast_payload_shape_w :
    (broadcastUserStatus [some (Conn.mk "u1" true true false 1)]
        [UserRecord.mk "u1" "alice" "a@x" 0]).map Prod.fst
      = sockIds [some (Conn.mk "u1" true true false 1)] ∧
    (∀ m ∈ broadcastUserStatus [some (Conn.mk "u1" true true false 1)]
        [UserRecord.mk "u1" "alice" "a@x" 0],
      m.2.1 = "user-status" ∧
      m.2.2 = usersWithStatus [some (Conn.mk "u1" true true false 1)]
        [UserRecord.mk "u1" "alice" "a@x" 0]) ∧
    (∀ e ∈ usersWithStatus [some (Conn.mk "u1" true true false 1)]
        [UserRecord.mk "u1" "alice" "a@x" 0],
      (serializeStatusEntry e).map Prod.fst = ["_id", "username", "email", "online"] ∧
      ∃ u ∈ [UserRecord.mk "u1" "alice" "a@x" 0], e._id = u._id ∧
        e.online = (onlineUserIds [some (Conn.mk "u1" true true false 1)]).contains u._id) :=
  broadcast_payload_shape [some (Conn.mk "u1" true true false 1)]
    [UserRecord.mk "u1" "alice" "a@x" 0]
    (by
      intro o ho
      rw [List.mem_singleton.mp ho]
      exact ⟨Conn.mk "u1" true true false 1, rfl, rfl⟩)

/-- C10: the heartbeat sweep leaves the non-open part of the registry —
`undefined` slots and entries whose transport is not open — exactly as it
was (so such entries keep their alive flags and are never spliced), and no
such entry's socket is pinged, terminated or evicted by the sweep (socket
identities being distinct objects); of the two periodic sweeps it is the
staleness sweep that removes them: its result is exactly the open entries. -/
theorem heartbeat_frame (reg : Registry) (h : uniq reg) (hs : (sockIds reg).Nodup) :
    nonOpenPart (hbTick reg).1 = nonOpenPart reg ∧
    (∀ c : Conn, some c ∈ reg → c.readyStateOpen = false →
      c.sockId ∉ (hbTick reg).2.pings ∧ c.sockId ∉ (hbTick reg).2.terms ∧
      c.sockId ∉ (hbTick reg).2.evictions) ∧
    (staleTick reg).1 = reg.filter staleKeep := by
  obtain ⟨-, h2, -, h4, h5, h6⟩ := hbAux_spec reg.length 0 reg noEffects h
  have hkey : ∀ c : Conn, some c ∈ reg → c.readyStateOpen = false →
      c.sockId ∉ openSocks reg := by
    intro c hc hopen hmem
    obtain ⟨c2, hc2, hc2open, hc2sock⟩ := mem_openSocks_elim hmem
    have hcc : c2 = c := proj_unique Conn.sockId hs hc2 hc hc2sock
    rw [hcc, hopen] at hc2open
    exact Bool.false_ne_true hc2open
  refine ⟨h2, ?_, ?_⟩
  · intro c hc hopen
    refine ⟨?_, ?_, ?_⟩ <;> intro hin
    · rcases h4 _ hin with h' | h'
      · simp [noEffects] at h'
      · exact hkey c hc hopen h'
    · rcases h5 _ hin with h' | h'
      · simp [noEffects] at h'
      · exact hkey c hc hopen h'
    · rcases h6 _ hin with h' | h'
      · simp [noEffects] at h'
      · exact hkey c hc hopen h'
  · show staleAux reg.length reg = reg.filter staleKeep
    exact staleAux_eq_filter reg

/-- C10 witness: a registry holding one closed-transport entry and one
`undefined` slot next to an open entry. -/
theorem heartbeat_frame_w :
    nonOpenPart (hbTick [some (Conn.mk "u1" false false false 9), none,
        some (Conn.mk "u2" true true false 3)]).1
      = nonOpenPart [some (Conn.mk "u1" false false false 9), none,
        some (Conn.mk "u2" true true false 3)] ∧
    (∀ c : Conn, some c ∈ ([some (Conn.mk "u1" false false false 9), none,
        some (Conn.mk "u2" true true false 3)] : Registry) → c.readyStateOpen = false →
      c.sockId ∉ (hbTick [some (Conn.mk "u1" false false false 9), none,
        some (Conn.mk "u2" true true false 3)]).2.pings ∧
      c.sockId ∉ (hbTick [some (Conn.mk "u1" false false false 9), none,
        some (Conn.mk "u2" true true false 3)]).2.terms ∧
      c.sockId ∉ (hbTick [some (Conn.mk "u1" false false false 9), none,
        some (Conn.mk "u2" true true false 3)]).2.evictions) ∧
    (staleTick [some (Conn.mk "u1" false false false 9), none,
        some (Conn.mk "u2" true true false 3)]).1
      = ([some (Conn.mk "u1" false false false 9), none,
        some (Conn.mk "u2" true true false 3)] : Registry).filter staleKeep :=
  heartbeat_frame [some (Conn.mk "u1" false false false 9), none,
      some (Conn.mk "u2" true true false 3)]
    (by unfold uniq; decide) (by decide)

end Presence
